import Mathlib

set_option maxHeartbeats 1000000

/-
Verification development for the Blink-1470 preprocessing and
activation-inversion pipeline (src/scripts/preprocess.py).

Shallow embedding conventions:
* numpy/tensorflow float arrays are modelled over the rationals (an
  ordered field with computable arithmetic — every computation the
  program performs on rational inputs stays rational); the single
  IEEE effect that matters here (0/0 = NaN in min-max scaling of a
  constant array) is modelled by the scalar type `Fl` below.
* 2-D arrays are `Mat α` (height, width, total valuation function);
  4-D tensors (batch, height, width, channels) are `T4`; convolution
  kernels (kh, kw, in-channels, out-channels) are `Ker`.
* File I/O (imsave, wav writing, playback) is omitted: it does not
  affect any returned value.
-/

/-- Scalar for numpy float results: a finite number or NaN.  Division by
zero yields NaN (in the one place division occurs — min-max scaling —
the numerator is zero whenever the denominator is, so IEEE infinities
are unreachable and are not modelled); NaN propagates through
multiplication, as in IEEE arithmetic. -/
inductive Fl where
  | r : ℚ → Fl
  | nan : Fl

def Fl.div : Fl → Fl → Fl
  | Fl.r a, Fl.r b => if b = 0 then Fl.nan else Fl.r (a / b)
  | _, _ => Fl.nan

def Fl.mul : Fl → Fl → Fl
  | Fl.r a, Fl.r b => Fl.r (a * b)
  | _, _ => Fl.nan

/-- IEEE comparison: any comparison with NaN is false. -/
def Fl.le : Fl → Fl → Prop
  | Fl.r a, Fl.r b => a ≤ b
  | _, _ => False

/-- numpy `astype(np.uint8)`: C-style float-to-unsigned cast.  On the
values produced here the float is in [0, 255], where the cast is
truncation (floor) reduced mod 256.  Casting NaN is unspecified in
numpy; the arbitrary value 0 stands in and is unreachable in every
theorem below (all have non-degenerate-range hypotheses). -/
def Fl.toUint8 : Fl → ℕ
  | Fl.r a => (Int.toNat ⌊a⌋) % 256
  | Fl.nan => 0

/-- A 2-D array: height, width, and a total valuation (entries outside
the valid index range are junk, never inspected by the theorems). -/
structure Mat (α : Type) where
  h : ℕ
  w : ℕ
  val : ℕ → ℕ → α

instance : Inhabited (Mat ℚ) := ⟨⟨0, 0, fun _ _ => 0⟩⟩

def Mat.map {α β : Type} (f : α → β) (A : Mat α) : Mat β :=
  ⟨A.h, A.w, fun i j => f (A.val i j)⟩

/-- `np.flip(A, axis=0)`: reverse the row order. -/
def Mat.flip0 {α : Type} (A : Mat α) : Mat α :=
  ⟨A.h, A.w, fun i j => A.val (A.h - 1 - i) j⟩

/-- numpy column slice `A[:, a:b]` (with numpy's clamping of the slice
bounds to the array width). -/
def Mat.colSlice {α : Type} (A : Mat α) (a b : ℕ) : Mat α :=
  ⟨A.h, min b A.w - min a A.w, fun i j => A.val i (min a A.w + j)⟩

/-- Row-major list of the valid entries of a matrix. -/
def Mat.entries {α : Type} (A : Mat α) : List α :=
  (List.range A.h).flatMap fun i => (List.range A.w).map fun j => A.val i j

/-- numpy `A.min()` over a non-empty array (the fold is seeded with the
(0,0) entry, itself a valid entry of a non-empty array). -/
def Mat.minVal (A : Mat ℚ) : ℚ := A.entries.foldl min (A.val 0 0)

/-- numpy `A.max()` over a non-empty array. -/
def Mat.maxVal (A : Mat ℚ) : ℚ := A.entries.foldl max (A.val 0 0)

/-- A 4-D tensor (batch, height, width, channels). -/
structure T4 where
  n : ℕ
  h : ℕ
  w : ℕ
  c : ℕ
  val : ℕ → ℕ → ℕ → ℕ → ℚ

/-- A convolution kernel (kh, kw, in-channels, out-channels). -/
structure Ker where
  kh : ℕ
  kw : ℕ
  ic : ℕ
  oc : ℕ
  val : ℕ → ℕ → ℕ → ℕ → ℚ

/-- Zero-padded read of a tensor at possibly out-of-range spatial
coordinates, as performed by `tf.nn.conv2d` with `padding="SAME"`. -/
def padVal (A : T4) (b : ℕ) (y x : ℤ) (c : ℕ) : ℚ :=
  if 0 ≤ y ∧ y < (A.h : ℤ) ∧ 0 ≤ x ∧ x < (A.w : ℤ) then
    A.val b y.toNat x.toNat c
  else 0

/-- `tf.nn.conv2d(A, K, strides=(1,1), padding="SAME")`.  With stride 1
the total padding per axis is `k-1`, with `(k-1)/2` placed before the
origin, so output spatial dimensions equal input spatial dimensions. -/
def conv2d_same (A : T4) (K : Ker) : T4 :=
  ⟨A.n, A.h, A.w, K.oc, fun b i j o =>
    ∑ u ∈ Finset.range K.kh, ∑ v ∈ Finset.range K.kw, ∑ c ∈ Finset.range K.ic,
      padVal A b ((i : ℤ) + (u : ℤ) - (((K.kh - 1) / 2 : ℕ) : ℤ))
                 ((j : ℤ) + (v : ℤ) - (((K.kw - 1) / 2 : ℕ) : ℤ)) c
        * K.val u v c o⟩

/-- `tf.nn.bias_add`: add the per-output-channel bias. -/
def bias_add (A : T4) (bias : ℕ → ℚ) : T4 :=
  ⟨A.n, A.h, A.w, A.c, fun b i j c => A.val b i j c + bias c⟩

/-- `tf.nn.relu`: elementwise max with 0. -/
def relu (A : T4) : T4 :=
  ⟨A.n, A.h, A.w, A.c, fun b i j c => max (A.val b i j c) 0⟩

/-- `tf.keras.layers.MaxPool2D((2,2), strides=2)`: 2x2 max pooling with
stride 2 (valid padding), halving each spatial dimension. -/
def maxpool2 (A : T4) : T4 :=
  ⟨A.n, A.h / 2, A.w / 2, A.c, fun b i j c =>
    max (max (A.val b (2 * i) (2 * j) c) (A.val b (2 * i) (2 * j + 1) c))
        (max (A.val b (2 * i + 1) (2 * j) c) (A.val b (2 * i + 1) (2 * j + 1) c))⟩

/-- `tf.keras.layers.UpSampling2D(size=(2,2))`: nearest-neighbour 2x
upsampling. -/
def upsample2 (A : T4) : T4 :=
  ⟨A.n, 2 * A.h, 2 * A.w, A.c, fun b i j c => A.val b (i / 2) (j / 2) c⟩

/-- The kernel transformation of the inverse pass:
`K[::-1, ::-1, :, :]` (flip both spatial axes) followed by
`tf.transpose(·, perm=[0,1,3,2])` (swap the channel axes). -/
def transform_kernel (K : Ker) : Ker :=
  ⟨K.kh, K.kw, K.oc, K.ic, fun u v c o => K.val (K.kh - 1 - u) (K.kw - 1 - v) o c⟩

/-- `np.squeeze` on a 4-D tensor, at the shape level: the shape with
all singleton axes removed (the entries are unchanged). -/
def squeeze_shape (A : T4) : List ℕ :=
  [A.n, A.h, A.w, A.c].filter (fun d => d != 1)

/-- `np.squeeze(S)` for a tensor of shape (1, h, w, 1): the 2-D array
of its spatial entries. -/
def squeeze4 (S : T4) : Mat ℚ :=
  ⟨S.h, S.w, fun i j => S.val 0 i j 0⟩

/-- `minmax_scaling(S, factor)` from preprocess.py:
`(S - S.min()) / (S.max() - S.min()) * factor`, elementwise.  On a
constant array the denominator (and every numerator) is zero and every
entry is NaN, faithfully to numpy's 0/0. -/
def minmax_scaling (S : Mat ℚ) (factor : ℚ) : Mat Fl :=
  ⟨S.h, S.w, fun i j =>
    Fl.mul (Fl.div (Fl.r (S.val i j - S.minVal)) (Fl.r (S.maxVal - S.minVal)))
           (Fl.r factor)⟩

/-- One convolution layer of `interpret_activation`:
`relu(bias_add(conv2d(S, kernel), bias))`. -/
def conv_layer (S : T4) (K : Ker) (bias : ℕ → ℚ) : T4 :=
  relu (bias_add (conv2d_same S K) bias)

/-- `np.reshape(conv[:, :, :, idx], (128, 128))` for a batch-1
activation tensor: the 128x128 activation map of output channel
`idx`. -/
def activation_map (S : T4) (K : Ker) (bias : ℕ → ℚ) (idx : ℕ) : Mat ℚ :=
  ⟨128, 128, fun i j => (conv_layer S K bias).val 0 i j idx⟩

/-- Result of `interpret_activation`: a single masked spectrogram when
a filter index is given, a list of them otherwise. -/
inductive InterpResult where
  | single : Mat Fl → InterpResult
  | multi : List (Mat Fl) → InterpResult

/-- The masked spectrogram inside an `InterpResult` (junk matrix for
the list case, used only where the single case is known to apply). -/
def maskedOf : InterpResult → Mat Fl
  | InterpResult.single m => m
  | InterpResult.multi _ => ⟨0, 0, fun _ _ => Fl.nan⟩

/-- `interpret_activation(S, weights, filter_index)` from
preprocess.py.  The png/wav emission arguments are I/O only and are
omitted.  When `filter_index` is given: one conv+bias+relu layer, the
chosen channel's 128x128 activation map is min-max scaled to [0,1] and
multiplied elementwise into the squeezed input.  When `filter_index`
is `none` the source initialises `masked = []` and its loop only
writes png/wav files — it never appends to `masked` — so the function
returns the empty list. -/
def interpret_activation (S : T4) (weights : Ker × (ℕ → ℚ))
    (filter_index : Option ℕ) : InterpResult :=
  match filter_index with
  | some idx =>
      let Ssq := squeeze4 S
      let activation_mask := minmax_scaling (activation_map S weights.1 weights.2 idx) 1
      let masked : Mat Fl :=
        ⟨128, 128, fun i j => Fl.mul (Fl.r (Ssq.val i j)) (activation_mask.val i j)⟩
      InterpResult.single masked
  | none => InterpResult.multi []

/-- `deconvolve_and_interpret(S, weights)` from preprocess.py.
Forward: for each (kernel, bias) pair in order,
conv2d (stride 1, SAME) → bias-add → relu → 2x2/stride-2 max-pool.
Inverse: exactly two hard-coded steps — upsample, then convolve with
the transformed copy of the kernel left in the loop variable (the LAST
stage's kernel), then upsample again and convolve with the transformed
copy of `weights[0][0]` (the FIRST stage's kernel).  On an empty
weight list the Python code raises NameError (the loop variable is
unbound), modelled by `none`.  The final `np.squeeze` only drops
singleton axes without changing entries; its effect on the shape is
`squeeze_shape`. -/
def deconvolve_and_interpret (S : T4) (weights : List (Ker × (ℕ → ℚ))) : Option T4 :=
  match weights with
  | [] => none
  | w0 :: rest =>
      let conv := (w0 :: rest).foldl
        (fun acc kb => maxpool2 (relu (bias_add (conv2d_same acc kb.1) kb.2))) S
      let lastW := ((w0 :: rest).getLast (List.cons_ne_nil w0 rest)).1
      let upsampled_1 := upsample2 conv
      let deconv_1 := conv2d_same upsampled_1 (transform_kernel lastW)
      let upsampled_2 := upsample2 deconv_1
      let deconv_2 := conv2d_same upsampled_2 (transform_kernel w0.1)
      some deconv_2

/-- The generalized inverter described by the spec (section 4.4,
generalization requirement): after the forward pass, one
upsample + kernel-transform + convolve step per forward stage, applied
to the stage kernels in reverse order, one stage per loop iteration.
Stated from the spec's words, to be compared with
`deconvolve_and_interpret` (which hard-codes two inverse steps). -/
def deconvolve_spec (S : T4) (weights : List (Ker × (ℕ → ℚ))) : T4 :=
  let conv := weights.foldl
    (fun acc kb => maxpool2 (relu (bias_add (conv2d_same acc kb.1) kb.2))) S
  weights.reverse.foldl
    (fun acc kb => conv2d_same (upsample2 acc) (transform_kernel kb.1)) conv

/-- `spectrogram_img(S)` from preprocess.py:
`255 - np.flip(minmax_scaling(S, 255).astype(np.uint8), axis=0)`.
The `io.imsave` side effect is omitted.  Entries of the flipped cast
array are < 256, so the uint8 subtraction `255 - p` never wraps. -/
def spectrogram_img (S : Mat ℚ) : Mat ℕ :=
  ⟨S.h, S.w, fun i j => 255 - ((minmax_scaling S 255).map Fl.toUint8).flip0.val i j⟩

/-- `revert_to_spectro(img, s_min, s_max)` from preprocess.py:
`np.flip(255 - img, axis=0) / 255 * (s_max - s_min) + s_min`. -/
def revert_to_spectro (img : Mat ℕ) (s_min s_max : ℚ) : Mat ℚ :=
  let scaled := (img.map (fun p => 255 - p)).flip0
  ⟨img.h, img.w, fun i j => ((scaled.val i j : ℕ) : ℚ) / 255 * (s_max - s_min) + s_min⟩

/-- `shuffle_data(inputs, labels)` from preprocess.py.
`np.random.shuffle` turns `np.arange(labels.shape[0])` into an
unspecified permutation of `0..n-1`; that nondeterministic permutation
is passed explicitly as `indices`.  The source then takes
`inputs[indices, :, :]` and `np.take(labels, indices)`. -/
def shuffle_data {α β : Type} [Inhabited α] [Inhabited β]
    (indices : List ℕ) (inputs : List α) (labels : List β) : List α × List β :=
  (indices.map fun ix => inputs.getD ix default,
   indices.map fun ix => labels.getD ix default)

/-- `make_square(genre, s)` from preprocess.py: extend `genre` with the
ten 128-column slices `s[:, :128]`, `s[:, 128:256]`, ...,
`s[:, 9*128:10*128]`.  The Python version mutates `genre` in place;
the embedding returns the extended list. -/
def make_square (genre : List (Mat ℚ)) (s : Mat ℚ) : List (Mat ℚ) :=
  genre ++
    [s.colSlice 0 128,
     s.colSlice 128 (2 * 128),
     s.colSlice (2 * 128) (3 * 128),
     s.colSlice (3 * 128) (4 * 128),
     s.colSlice (4 * 128) (5 * 128),
     s.colSlice (5 * 128) (6 * 128),
     s.colSlice (6 * 128) (7 * 128),
     s.colSlice (7 * 128) (8 * 128),
     s.colSlice (8 * 128) (9 * 128),
     s.colSlice (9 * 128) (10 * 128)]

/- ------------------------------------------------------------------ -/
/- Helper lemmas: folds computing numpy min/max over matrix entries.  -/
/- ------------------------------------------------------------------ -/

lemma foldl_min_le_init (l : List ℚ) (a : ℚ) : l.foldl min a ≤ a := by
  induction l generalizing a with
  | nil => simp
  | cons x xs ih => exact le_trans (ih (min a x)) (min_le_left a x)

lemma foldl_min_le_of_mem (l : List ℚ) (a x : ℚ) (hx : x ∈ l) : l.foldl min a ≤ x := by
  induction l generalizing a with
  | nil => simp at hx
  | cons y ys ih =>
      rcases List.mem_cons.mp hx with h | h
      · subst h
        exact le_trans (foldl_min_le_init ys (min a x)) (min_le_right a x)
      · exact ih (min a y) h

lemma le_foldl_min (l : List ℚ) (a c : ℚ) (ha : c ≤ a) (hl : ∀ x ∈ l, c ≤ x) :
    c ≤ l.foldl min a := by
  induction l generalizing a with
  | nil => simpa using ha
  | cons y ys ih =>
      exact ih (min a y) (le_min ha (hl y (List.mem_cons_self y _))) fun x hx =>
        hl x (List.mem_cons_of_mem y hx)

lemma init_le_foldl_max (l : List ℚ) (a : ℚ) : a ≤ l.foldl max a := by
  induction l generalizing a with
  | nil => simp
  | cons x xs ih => exact le_trans (le_max_left a x) (ih (max a x))

lemma mem_le_foldl_max (l : List ℚ) (a x : ℚ) (hx : x ∈ l) : x ≤ l.foldl max a := by
  induction l generalizing a with
  | nil => simp at hx
  | cons y ys ih =>
      rcases List.mem_cons.mp hx with h | h
      · subst h
        exact le_trans (le_max_right a x) (init_le_foldl_max ys (max a x))
      · exact ih (max a y) h

lemma foldl_max_le (l : List ℚ) (a c : ℚ) (ha : a ≤ c) (hl : ∀ x ∈ l, x ≤ c) :
    l.foldl max a ≤ c := by
  induction l generalizing a with
  | nil => simpa using ha
  | cons y ys ih =>
      exact ih (max a y) (max_le ha (hl y (List.mem_cons_self y _))) fun x hx =>
        hl x (List.mem_cons_of_mem y hx)

lemma Mat.mem_entries_iff {α : Type} (A : Mat α) (x : α) :
    x ∈ A.entries ↔ ∃ i j, i < A.h ∧ j < A.w ∧ x = A.val i j := by
  simp only [Mat.entries, List.mem_flatMap, List.mem_map, List.mem_range]
  constructor
  · rintro ⟨i, hi, j, hj, rfl⟩
    exact ⟨i, j, hi, hj, rfl⟩
  · rintro ⟨i, j, hi, hj, rfl⟩
    exact ⟨i, hi, j, hj, rfl⟩

lemma Mat.val_mem_entries {α : Type} (A : Mat α) {i j : ℕ} (hi : i < A.h) (hj : j < A.w) :
    A.val i j ∈ A.entries :=
  (A.mem_entries_iff _).mpr ⟨i, j, hi, hj, rfl⟩

lemma Mat.minVal_le (A : Mat ℚ) {i j : ℕ} (hi : i < A.h) (hj : j < A.w) :
    A.minVal ≤ A.val i j :=
  foldl_min_le_of_mem _ _ _ (A.val_mem_entries hi hj)

lemma Mat.le_maxVal (A : Mat ℚ) {i j : ℕ} (hi : i < A.h) (hj : j < A.w) :
    A.val i j ≤ A.maxVal :=
  mem_le_foldl_max _ _ _ (A.val_mem_entries hi hj)

lemma Mat.le_minVal (A : Mat ℚ) {c : ℚ} (h0 : 0 < A.h) (w0 : 0 < A.w)
    (hc : ∀ i j, i < A.h → j < A.w → c ≤ A.val i j) : c ≤ A.minVal := by
  refine le_foldl_min _ _ _ (hc 0 0 h0 w0) fun x hx => ?_
  obtain ⟨i, j, hi, hj, rfl⟩ := (A.mem_entries_iff x).mp hx
  exact hc i j hi hj

lemma Mat.maxVal_le (A : Mat ℚ) {c : ℚ} (h0 : 0 < A.h) (w0 : 0 < A.w)
    (hc : ∀ i j, i < A.h → j < A.w → A.val i j ≤ c) : A.maxVal ≤ c := by
  refine foldl_max_le _ _ _ (hc 0 0 h0 w0) fun x hx => ?_
  obtain ⟨i, j, hi, hj, rfl⟩ := (A.mem_entries_iff x).mp hx
  exact hc i j hi hj

lemma Mat.minVal_le_maxVal (A : Mat ℚ) (h0 : 0 < A.h) (w0 : 0 < A.w) :
    A.minVal ≤ A.maxVal :=
  le_trans (A.minVal_le h0 w0) (A.le_maxVal h0 w0)

/-- Entry of `minmax_scaling` when the range is non-degenerate. -/
lemma minmax_scaling_val (S : Mat ℚ) (factor : ℚ) (hne : S.maxVal - S.minVal ≠ 0)
    (i j : ℕ) :
    (minmax_scaling S factor).val i j =
      Fl.r ((S.val i j - S.minVal) / (S.maxVal - S.minVal) * factor) := by
  simp [minmax_scaling, Fl.div, Fl.mul, hne]

/-- Entry of `minmax_scaling` on a degenerate (constant) range: NaN,
numpy's 0/0. -/
lemma minmax_scaling_val_degenerate (S : Mat ℚ) (factor : ℚ)
    (heq : S.maxVal - S.minVal = 0) (i j : ℕ) :
    (minmax_scaling S factor).val i j = Fl.nan := by
  simp [minmax_scaling, Fl.div, Fl.mul, heq]
/- Shape projection lemmas for the tensor operations (all definitional). -/

@[simp] lemma conv2d_same_n (A : T4) (K : Ker) : (conv2d_same A K).n = A.n := rfl
@[simp] lemma conv2d_same_h (A : T4) (K : Ker) : (conv2d_same A K).h = A.h := rfl
@[simp] lemma conv2d_same_w (A : T4) (K : Ker) : (conv2d_same A K).w = A.w := rfl
@[simp] lemma conv2d_same_c (A : T4) (K : Ker) : (conv2d_same A K).c = K.oc := rfl
@[simp] lemma bias_add_n (A : T4) (b : ℕ → ℚ) : (bias_add A b).n = A.n := rfl
@[simp] lemma bias_add_h (A : T4) (b : ℕ → ℚ) : (bias_add A b).h = A.h := rfl
@[simp] lemma bias_add_w (A : T4) (b : ℕ → ℚ) : (bias_add A b).w = A.w := rfl
@[simp] lemma bias_add_c (A : T4) (b : ℕ → ℚ) : (bias_add A b).c = A.c := rfl
@[simp] lemma relu_n (A : T4) : (relu A).n = A.n := rfl
@[simp] lemma relu_h (A : T4) : (relu A).h = A.h := rfl
@[simp] lemma relu_w (A : T4) : (relu A).w = A.w := rfl
@[simp] lemma relu_c (A : T4) : (relu A).c = A.c := rfl
@[simp] lemma maxpool2_n (A : T4) : (maxpool2 A).n = A.n := rfl
@[simp] lemma maxpool2_h (A : T4) : (maxpool2 A).h = A.h / 2 := rfl
@[simp] lemma maxpool2_w (A : T4) : (maxpool2 A).w = A.w / 2 := rfl
@[simp] lemma maxpool2_c (A : T4) : (maxpool2 A).c = A.c := rfl
@[simp] lemma upsample2_n (A : T4) : (upsample2 A).n = A.n := rfl
@[simp] lemma upsample2_h (A : T4) : (upsample2 A).h = 2 * A.h := rfl
@[simp] lemma upsample2_w (A : T4) : (upsample2 A).w = 2 * A.w := rfl
@[simp] lemma upsample2_c (A : T4) : (upsample2 A).c = A.c := rfl
@[simp] lemma transform_kernel_oc (K : Ker) : (transform_kernel K).oc = K.ic := rfl

section ClaimsBatch1

/-- Concrete all-ones 4x4 single-channel input tile (shape (1,4,4,1)). -/
def S4 : T4 := ⟨1, 4, 4, 1, fun _ _ _ _ => 1⟩

/-- Concrete 1x1 kernel (1 in-channel, 1 out-channel). -/
def K1 : Ker := ⟨1, 1, 1, 1, fun _ _ _ _ => 1⟩

/-- Zero bias. -/
def zeroB : ℕ → ℚ := fun _ => 0

/-- Claim C1 (code evaluation): with `filter_index` omitted,
`interpret_activation` returns the empty list for every input and
every weight pair — the loop never appends to `masked` — rather than
one masked spectrogram per output channel. -/
theorem interpret_activation_none_empty (S : T4) (K : Ker) (b : ℕ → ℚ) :
    interpret_activation S (K, b) none = InterpResult.multi [] := rfl

/-- Claim C3 (counterexample): on a single-stage weight list the code
still performs two inverse steps, so its output is 8x8 while the
spec's one-step-per-stage inverter returns 4x4 from a 4x4 input; the
two disagree. -/
theorem deconvolve_single_stage_cex :
    (deconvolve_and_interpret S4 [(K1, zeroB)]).map T4.h = some 8 ∧
    (deconvolve_spec S4 [(K1, zeroB)]).h = 4 ∧
    deconvolve_and_interpret S4 [(K1, zeroB)] ≠ some (deconvolve_spec S4 [(K1, zeroB)]) := by
  refine ⟨rfl, rfl, ?_⟩
  intro heq
  have h8 : (deconvolve_and_interpret S4 [(K1, zeroB)]).map T4.h = some 8 := rfl
  rw [heq] at h8
  have h4 : (4 : ℕ) = 8 := Option.some.inj h8
  exact absurd h4 (by decide)

/-- Claim C3 (amended): for weight lists of exactly two stages the
code's two hard-coded inverse steps coincide with the spec's
reverse-order loop (last stage's kernel, then first stage's). -/
theorem deconvolve_two_stage_matches_spec (S : T4) (w1 w2 : Ker × (ℕ → ℚ)) :
    deconvolve_and_interpret S [w1, w2] = some (deconvolve_spec S [w1, w2]) := rfl

/-- Claim C7: for a (1,128,128,1) input and any two-stage weight list
with chained channel dimensions, `deconvolve_and_interpret` returns a
tensor that is spatially 128x128 (and squeezes to shape [128,128]),
regardless of the intermediate channel counts. -/
theorem deconvolve_two_stage_shape (S : T4) (k1 k2 : Ker) (b1 b2 : ℕ → ℚ)
    (hn : S.n = 1) (hh : S.h = 128) (hw : S.w = 128) (hc : S.c = 1)
    (hic : k1.ic = 1) (hchain : k2.ic = k1.oc) :
    ∃ t, deconvolve_and_interpret S [(k1, b1), (k2, b2)] = some t ∧
      t.h = 128 ∧ t.w = 128 ∧ squeeze_shape t = [128, 128] := by
  refine ⟨_, rfl, ?_, ?_, ?_⟩ <;>
    simp [squeeze_shape, hn, hh, hw, hic]

/-- Concrete zero (1,128,128,1) input tile. -/
def S128 : T4 := ⟨1, 128, 128, 1, fun _ _ _ _ => 0⟩

/-- Concrete 3x3 kernel, 1 in-channel, 4 out-channels. -/
def KA : Ker := ⟨3, 3, 1, 4, fun _ _ _ _ => 1⟩

/-- Concrete 3x3 kernel, 4 in-channels, 8 out-channels. -/
def KB : Ker := ⟨3, 3, 4, 8, fun _ _ _ _ => 1⟩

/-- Witness for claim C7 at a concrete input. -/
theorem deconvolve_two_stage_shape_witness :
    S128.n = 1 ∧ S128.h = 128 ∧ S128.w = 128 ∧ S128.c = 1 ∧ KA.ic = 1 ∧ KB.ic = KA.oc ∧
    (∃ t, deconvolve_and_interpret S128 [(KA, zeroB), (KB, zeroB)] = some t ∧
      t.h = 128 ∧ t.w = 128 ∧ squeeze_shape t = [128, 128]) :=
  ⟨rfl, rfl, rfl, rfl, rfl, rfl,
   deconvolve_two_stage_shape S128 KA KB zeroB zeroB rfl rfl rfl rfl rfl rfl⟩

/-- Claim C9: on a 128-row spectrogram with at least 1280 time frames,
`make_square` appends exactly ten 128x128 tiles, tile k holding
columns [128k, 128(k+1)). -/
theorem make_square_tiles (genre : List (Mat ℚ)) (s : Mat ℚ)
    (hh : s.h = 128) (hw : 1280 ≤ s.w) :
    ∃ tiles : List (Mat ℚ), make_square genre s = genre ++ tiles ∧ tiles.length = 10 ∧
      ∀ k, (hk : k < tiles.length) → (tiles.get ⟨k, hk⟩).h = 128 ∧
        (tiles.get ⟨k, hk⟩).w = 128 ∧
        ∀ i j, (tiles.get ⟨k, hk⟩).val i j = s.val i (128 * k + j) := by
  refine ⟨_, rfl, rfl, ?_⟩
  intro k hk
  have hk10 : k < 10 := by simpa using hk
  interval_cases k
  all_goals
    refine ⟨hh, ?_, fun i j => ?_⟩
  all_goals
    first
    | (show min _ s.w - min _ s.w = 128
       omega)
    | (show s.val i (min _ s.w + j) = _
       congr 1
       omega)

/-- Concrete 128x1280 spectrogram. -/
def sBig : Mat ℚ := ⟨128, 1280, fun i j => ((i + j : ℕ) : ℚ)⟩

/-- Witness for claim C9 at a concrete input. -/
theorem make_square_tiles_witness :
    sBig.h = 128 ∧ 1280 ≤ sBig.w ∧
    (∃ tiles, make_square [] sBig = [] ++ tiles ∧ tiles.length = 10 ∧
      ∀ k, (hk : k < tiles.length) → (tiles.get ⟨k, hk⟩).h = 128 ∧
        (tiles.get ⟨k, hk⟩).w = 128 ∧
        ∀ i j, (tiles.get ⟨k, hk⟩).val i j = sBig.val i (128 * k + j)) :=
  ⟨rfl, by norm_num [sBig], make_square_tiles [] sBig rfl (by norm_num [sBig])⟩

/-- Indexing a list by the identity index list recovers the list. -/
lemma range_map_getD {α : Type} [Inhabited α] (l : List α) :
    (List.range l.length).map (fun i => l.getD i default) = l := by
  apply List.ext_getElem
  · simp
  · intro i h1 h2
    simp [List.getD_eq_getElem?_getD, List.getElem?_eq_getElem, h2]

/-- Claim C10: `shuffle_data` applies one and the same permutation to
inputs and labels: each output position k pairs input row
`indices[k]` with label `indices[k]`, and both outputs are
permutations of the originals. -/
theorem shuffle_data_perm_pairing {α β : Type} [Inhabited α] [Inhabited β]
    (indices : List ℕ) (inputs : List α) (labels : List β)
    (hlen : labels.length = inputs.length)
    (hperm : indices.Perm (List.range labels.length)) :
    (shuffle_data indices inputs labels).1.Perm inputs ∧
    (shuffle_data indices inputs labels).2.Perm labels ∧
    ∀ k, k < indices.length →
      (shuffle_data indices inputs labels).1.getD k default =
        inputs.getD (indices.getD k 0) default ∧
      (shuffle_data indices inputs labels).2.getD k default =
        labels.getD (indices.getD k 0) default := by
  refine ⟨?_, ?_, ?_⟩
  · have h1 := hperm.map (fun ix => inputs.getD ix default)
    rw [hlen] at h1
    rw [range_map_getD inputs] at h1
    exact h1
  · have h1 := hperm.map (fun ix => labels.getD ix default)
    rw [range_map_getD labels] at h1
    exact h1
  · intro k hk
    have hk1 : k < (indices.map (fun ix => inputs.getD ix default)).length := by
      simpa using hk
    have hk2 : k < (indices.map (fun ix => labels.getD ix default)).length := by
      simpa using hk
    constructor
    · show (indices.map (fun ix => inputs.getD ix default)).getD k default = _
      rw [List.getD_eq_getElem _ _ hk1, List.getElem_map, List.getD_eq_getElem _ _ hk]
    · show (indices.map (fun ix => labels.getD ix default)).getD k default = _
      rw [List.getD_eq_getElem _ _ hk2, List.getElem_map, List.getD_eq_getElem _ _ hk]

/-- Witness for claim C10 at a concrete permutation and data. -/
theorem shuffle_data_perm_pairing_witness :
    ([5, 6, 7] : List ℚ).length = ([10, 20, 30] : List ℚ).length ∧
    ([2, 0, 1] : List ℕ).Perm (List.range ([5, 6, 7] : List ℚ).length) ∧
    ((shuffle_data [2, 0, 1] [10, 20, 30] [5, 6, 7]).1.Perm ([10, 20, 30] : List ℚ) ∧
     (shuffle_data [2, 0, 1] [10, 20, 30] [5, 6, 7]).2.Perm ([5, 6, 7] : List ℚ) ∧
     ∀ k, k < ([2, 0, 1] : List ℕ).length →
       (shuffle_data [2, 0, 1] [10, 20, 30] ([5, 6, 7] : List ℚ)).1.getD k default =
         ([10, 20, 30] : List ℚ).getD (([2, 0, 1] : List ℕ).getD k 0) default ∧
       (shuffle_data [2, 0, 1] [10, 20, 30] ([5, 6, 7] : List ℚ)).2.getD k default =
         ([5, 6, 7] : List ℚ).getD (([2, 0, 1] : List ℕ).getD k 0) default) :=
  ⟨rfl, by decide,
   shuffle_data_perm_pairing [2, 0, 1] [10, 20, 30] [5, 6, 7] rfl (by decide)⟩

end ClaimsBatch1
section ClaimsBatch2

/-- Cast of the uint8 quantisation back to ℚ: for a value in [0,255]
the cast is exactly the floor. -/
lemma toUint8_cast (a : ℚ) (h0 : 0 ≤ a) (h255 : a ≤ 255) :
    ((Fl.toUint8 (Fl.r a) : ℕ) : ℚ) = (⌊a⌋ : ℚ) := by
  have hf0 : 0 ≤ ⌊a⌋ := Int.floor_nonneg.mpr h0
  have hf1 : ⌊a⌋ ≤ 255 := by
    have h1 : ⌊a⌋ ≤ ⌊(255 : ℚ)⌋ := Int.floor_le_floor h255
    have h2 : (⌊(255 : ℚ)⌋ : ℤ) = 255 := by norm_num
    omega
  have hm : Int.toNat ⌊a⌋ % 256 = Int.toNat ⌊a⌋ := Nat.mod_eq_of_lt (by omega)
  show ((Int.toNat ⌊a⌋ % 256 : ℕ) : ℚ) = _
  rw [hm]
  exact_mod_cast congrArg Int.cast (Int.toNat_of_nonneg hf0)

lemma toUint8_le_255 (x : Fl) : Fl.toUint8 x ≤ 255 := by
  cases x with
  | r a =>
      have : Int.toNat ⌊a⌋ % 256 < 256 := Nat.mod_lt _ (by norm_num)
      simpa [Fl.toUint8] using Nat.lt_succ_iff.mp this
  | nan => simp [Fl.toUint8]

/-- Claim C8: for a non-constant spectrogram, `spectrogram_img` is the
vertical flip of `255 - toUint8(minmaxScale(S,255))`; the minimum value
maps to pixel 255 and the maximum value to pixel 0. -/
theorem spectrogram_img_min_max_flip (S : Mat ℚ) (h0 : 0 < S.h) (w0 : 0 < S.w)
    (hne : S.minVal ≠ S.maxVal) :
    (∀ i j, (spectrogram_img S).val i j =
        255 - Fl.toUint8 ((minmax_scaling S 255).val (S.h - 1 - i) j)) ∧
    (∀ i j, i < S.h → j < S.w → S.val i j = S.minVal →
        (spectrogram_img S).val (S.h - 1 - i) j = 255) ∧
    (∀ i j, i < S.h → j < S.w → S.val i j = S.maxVal →
        (spectrogram_img S).val (S.h - 1 - i) j = 0) := by
  have hlt : S.minVal < S.maxVal :=
    lt_of_le_of_ne (S.minVal_le_maxVal h0 w0) hne
  have hdne : S.maxVal - S.minVal ≠ 0 := by intro h; apply hne; linarith
  refine ⟨fun i j => rfl, ?_, ?_⟩
  · intro i j hi hj hv
    have hidx : S.h - 1 - (S.h - 1 - i) = i := by omega
    show 255 - Fl.toUint8 ((minmax_scaling S 255).val (S.h - 1 - (S.h - 1 - i)) j) = 255
    rw [hidx, minmax_scaling_val S 255 hdne, hv]
    norm_num [Fl.toUint8]
  · intro i j hi hj hv
    have hidx : S.h - 1 - (S.h - 1 - i) = i := by omega
    show 255 - Fl.toUint8 ((minmax_scaling S 255).val (S.h - 1 - (S.h - 1 - i)) j) = 0
    rw [hidx, minmax_scaling_val S 255 hdne, hv]
    rw [div_self hdne]
    norm_num [Fl.toUint8]
    decide

/-- Concrete 2x1 spectrogram with value range exactly [-10, 10]. -/
def S2 : Mat ℚ := ⟨2, 1, fun i _ => if i = 0 then -10 else 10⟩

/-- Witness for claim C8: on the [-10,10] spectrogram, -10 maps to
pixel 255 and 10 to pixel 0, with rows flipped. -/
theorem spectrogram_img_min_max_flip_witness :
    0 < S2.h ∧ 0 < S2.w ∧ S2.minVal ≠ S2.maxVal ∧
    ((∀ i j, (spectrogram_img S2).val i j =
        255 - Fl.toUint8 ((minmax_scaling S2 255).val (S2.h - 1 - i) j)) ∧
     (∀ i j, i < S2.h → j < S2.w → S2.val i j = S2.minVal →
        (spectrogram_img S2).val (S2.h - 1 - i) j = 255) ∧
     (∀ i j, i < S2.h → j < S2.w → S2.val i j = S2.maxVal →
        (spectrogram_img S2).val (S2.h - 1 - i) j = 0)) :=
  ⟨by decide, by decide, by decide,
   spectrogram_img_min_max_flip S2 (by decide) (by decide) (by decide)⟩

/-- Claim C5: for a non-constant spectrogram, the round trip through
the 8-bit image reconstructs every entry within the quantisation bound
(1/255) * (max - min). -/
theorem revert_spectro_roundtrip (S : Mat ℚ) (h0 : 0 < S.h) (w0 : 0 < S.w)
    (hne : S.minVal ≠ S.maxVal) :
    ∀ i j, i < S.h → j < S.w →
      |(revert_to_spectro (spectrogram_img S) S.minVal S.maxVal).val i j - S.val i j| ≤
        1 / 255 * (S.maxVal - S.minVal) := by
  intro i j hi hj
  have hlt : S.minVal < S.maxVal :=
    lt_of_le_of_ne (S.minVal_le_maxVal h0 w0) hne
  have hd : (0 : ℚ) < S.maxVal - S.minVal := by linarith
  have hdne : S.maxVal - S.minVal ≠ 0 := ne_of_gt hd
  have hvm := S.minVal_le hi hj
  have hvM := S.le_maxVal hi hj
  have ha0 : 0 ≤ (S.val i j - S.minVal) / (S.maxVal - S.minVal) * 255 := by
    apply mul_nonneg _ (by norm_num)
    exact div_nonneg (by linarith) (le_of_lt hd)
  have ha255 : (S.val i j - S.minVal) / (S.maxVal - S.minVal) * 255 ≤ 255 := by
    have h1 : (S.val i j - S.minVal) / (S.maxVal - S.minVal) ≤ 1 := by
      rw [div_le_one hd]; linarith
    nlinarith
  have hidx : S.h - 1 - (S.h - 1 - i) = i := by omega
  have himg : (spectrogram_img S).val (S.h - 1 - i) j =
      255 - Fl.toUint8 (Fl.r ((S.val i j - S.minVal) / (S.maxVal - S.minVal) * 255)) := by
    show 255 - Fl.toUint8 ((minmax_scaling S 255).val (S.h - 1 - (S.h - 1 - i)) j) = _
    rw [hidx, minmax_scaling_val S 255 hdne]
  have hp : Fl.toUint8 (Fl.r ((S.val i j - S.minVal) / (S.maxVal - S.minVal) * 255)) ≤ 255 :=
    toUint8_le_255 _
  have hrev : (revert_to_spectro (spectrogram_img S) S.minVal S.maxVal).val i j =
      ((Fl.toUint8 (Fl.r ((S.val i j - S.minVal) / (S.maxVal - S.minVal) * 255)) : ℕ) : ℚ)
        / 255 * (S.maxVal - S.minVal) + S.minVal := by
    show ((255 - (spectrogram_img S).val (S.h - 1 - i) j : ℕ) : ℚ)
        / 255 * (S.maxVal - S.minVal) + S.minVal = _
    rw [himg, Nat.sub_sub_self hp]
  rw [hrev, toUint8_cast _ ha0 ha255]
  have hfl1 : (⌊(S.val i j - S.minVal) / (S.maxVal - S.minVal) * 255⌋ : ℚ) ≤
      (S.val i j - S.minVal) / (S.maxVal - S.minVal) * 255 := Int.floor_le _
  have hfl2 : (S.val i j - S.minVal) / (S.maxVal - S.minVal) * 255 - 1 <
      (⌊(S.val i j - S.minVal) / (S.maxVal - S.minVal) * 255⌋ : ℚ) :=
    Int.sub_one_lt_floor _
  have hSval : S.val i j =
      (S.val i j - S.minVal) / (S.maxVal - S.minVal) * 255 / 255 * (S.maxVal - S.minVal)
        + S.minVal := by
    field_simp
    ring
  rw [abs_le]
  constructor <;> nlinarith [hfl1, hfl2, hd]

/-- Witness for claim C5 at the concrete [-10,10] spectrogram. -/
theorem revert_spectro_roundtrip_witness :
    0 < S2.h ∧ 0 < S2.w ∧ S2.minVal ≠ S2.maxVal ∧
    ∀ i j, i < S2.h → j < S2.w →
      |(revert_to_spectro (spectrogram_img S2) S2.minVal S2.maxVal).val i j - S2.val i j| ≤
        1 / 255 * (S2.maxVal - S2.minVal) :=
  ⟨by decide, by decide, by decide,
   revert_spectro_roundtrip S2 (by decide) (by decide) (by decide)⟩

end ClaimsBatch2
section ClaimsBatch3

/-- Concrete constant-5 (1,128,128,1) spectrogram tile. -/
def S5 : T4 := ⟨1, 128, 128, 1, fun _ _ _ _ => 5⟩

/-- Concrete all-zero (1,128,128,1) spectrogram tile. -/
def S0 : T4 := ⟨1, 128, 128, 1, fun _ _ _ _ => 0⟩

/-- Concrete 3x3 all-ones kernel with 1 in-channel and 32 out-channels. -/
def onesK : Ker := ⟨3, 3, 1, 32, fun _ _ _ _ => 1⟩

/-- One summand of the 3x3 convolution of the constant-5 tile: 5 when
the padded read is in range, 0 otherwise. -/
def ite5 (i j u v : ℕ) : ℚ :=
  if 0 ≤ (i : ℤ) + (u : ℤ) - 1 ∧ (i : ℤ) + (u : ℤ) - 1 < 128 ∧
     0 ≤ (j : ℤ) + (v : ℤ) - 1 ∧ (j : ℤ) + (v : ℤ) - 1 < 128
  then (5 : ℚ) else 0

lemma ite5_nonneg (i j u v : ℕ) : 0 ≤ ite5 i j u v := by
  unfold ite5; split_ifs <;> norm_num

lemma ite5_le_5 (i j u v : ℕ) : ite5 i j u v ≤ 5 := by
  unfold ite5; split_ifs <;> norm_num

lemma ite5_eq_5 (i j u v : ℕ)
    (h : 0 ≤ (i : ℤ) + (u : ℤ) - 1 ∧ (i : ℤ) + (u : ℤ) - 1 < 128 ∧
         0 ≤ (j : ℤ) + (v : ℤ) - 1 ∧ (j : ℤ) + (v : ℤ) - 1 < 128) :
    ite5 i j u v = 5 := by
  unfold ite5; exact if_pos h

/-- The activation map of the constant-5 tile under the all-ones
kernel with zero bias, written as the 3x3 sum of in-range reads. -/
lemma act5_val_eq (i j : ℕ) :
    (activation_map S5 onesK zeroB 0).val i j =
      ∑ u ∈ Finset.range 3, ∑ v ∈ Finset.range 3, ite5 i j u v := by
  have hnn : (0 : ℚ) ≤ ∑ u ∈ Finset.range 3, ∑ v ∈ Finset.range 3, ite5 i j u v :=
    Finset.sum_nonneg fun u _ => Finset.sum_nonneg fun v _ => ite5_nonneg i j u v
  show max ((conv2d_same S5 onesK).val 0 i j 0 + zeroB 0) 0 = _
  have hconv : (conv2d_same S5 onesK).val 0 i j 0 =
      ∑ u ∈ Finset.range 3, ∑ v ∈ Finset.range 3, ite5 i j u v := by
    simp [conv2d_same, padVal, S5, onesK, ite5]
  rw [hconv]
  show max (_ + (0:ℚ)) 0 = _
  rw [add_zero]
  exact max_eq_left hnn

lemma pair_le_sum3 (f : ℕ → ℚ) (hnn : ∀ u ∈ Finset.range 3, 0 ≤ f u)
    {a b : ℕ} (hab : a ≠ b) (ha : a < 3) (hb : b < 3) :
    f a + f b ≤ ∑ u ∈ Finset.range 3, f u := by
  have hsub : ({a, b} : Finset ℕ) ⊆ Finset.range 3 := by
    intro x hx
    simp only [Finset.mem_insert, Finset.mem_singleton] at hx
    rcases hx with rfl | rfl <;> simpa [Finset.mem_range]
  calc f a + f b = ∑ u ∈ ({a, b} : Finset ℕ), f u := (Finset.sum_pair hab).symm
    _ ≤ ∑ u ∈ Finset.range 3, f u :=
        Finset.sum_le_sum_of_subset_of_nonneg hsub fun x hx _ => hnn x hx

/-- Four guaranteed in-range summands bound the 3x3 sum below by 20. -/
lemma sum9_lower_core (t : ℕ → ℕ → ℚ) (hnn : ∀ u v, 0 ≤ t u v)
    (u0 u1 v0 v1 : ℕ) (hu : u0 ≠ u1) (hv : v0 ≠ v1)
    (hu0 : u0 < 3) (hu1 : u1 < 3) (hv0 : v0 < 3) (hv1 : v1 < 3)
    (h00 : t u0 v0 = 5) (h01 : t u0 v1 = 5) (h10 : t u1 v0 = 5) (h11 : t u1 v1 = 5) :
    20 ≤ ∑ u ∈ Finset.range 3, ∑ v ∈ Finset.range 3, t u v := by
  have hs0 : 10 ≤ ∑ v ∈ Finset.range 3, t u0 v := by
    have h := pair_le_sum3 (t u0) (fun v _ => hnn u0 v) hv hv0 hv1
    rw [h00, h01] at h; linarith
  have hs1 : 10 ≤ ∑ v ∈ Finset.range 3, t u1 v := by
    have h := pair_le_sum3 (t u1) (fun v _ => hnn u1 v) hv hv0 hv1
    rw [h10, h11] at h; linarith
  have h := pair_le_sum3 (fun u => ∑ v ∈ Finset.range 3, t u v)
    (fun u _ => Finset.sum_nonneg fun v _ => hnn u v) hu hu0 hu1
  dsimp only at h
  linarith

lemma sum9_lower (i j : ℕ) (hi : i < 128) (hj : j < 128) :
    20 ≤ ∑ u ∈ Finset.range 3, ∑ v ∈ Finset.range 3, ite5 i j u v := by
  rcases Nat.eq_zero_or_pos i with hi0 | hip <;> rcases Nat.eq_zero_or_pos j with hj0 | hjp
  · exact sum9_lower_core (ite5 i j) (ite5_nonneg i j) 1 2 1 2
      (by omega) (by omega) (by omega) (by omega) (by omega) (by omega)
      (ite5_eq_5 _ _ _ _ (by omega)) (ite5_eq_5 _ _ _ _ (by omega))
      (ite5_eq_5 _ _ _ _ (by omega)) (ite5_eq_5 _ _ _ _ (by omega))
  · exact sum9_lower_core (ite5 i j) (ite5_nonneg i j) 1 2 0 1
      (by omega) (by omega) (by omega) (by omega) (by omega) (by omega)
      (ite5_eq_5 _ _ _ _ (by omega)) (ite5_eq_5 _ _ _ _ (by omega))
      (ite5_eq_5 _ _ _ _ (by omega)) (ite5_eq_5 _ _ _ _ (by omega))
  · exact sum9_lower_core (ite5 i j) (ite5_nonneg i j) 0 1 1 2
      (by omega) (by omega) (by omega) (by omega) (by omega) (by omega)
      (ite5_eq_5 _ _ _ _ (by omega)) (ite5_eq_5 _ _ _ _ (by omega))
      (ite5_eq_5 _ _ _ _ (by omega)) (ite5_eq_5 _ _ _ _ (by omega))
  · exact sum9_lower_core (ite5 i j) (ite5_nonneg i j) 0 1 0 1
      (by omega) (by omega) (by omega) (by omega) (by omega) (by omega)
      (ite5_eq_5 _ _ _ _ (by omega)) (ite5_eq_5 _ _ _ _ (by omega))
      (ite5_eq_5 _ _ _ _ (by omega)) (ite5_eq_5 _ _ _ _ (by omega))

lemma sum9_upper (i j : ℕ) :
    ∑ u ∈ Finset.range 3, ∑ v ∈ Finset.range 3, ite5 i j u v ≤ 45 := by
  have h1 : ∀ u ∈ Finset.range 3, ∑ v ∈ Finset.range 3, ite5 i j u v ≤ 15 := by
    intro u _
    calc ∑ v ∈ Finset.range 3, ite5 i j u v ≤ ∑ _v ∈ Finset.range 3, (5 : ℚ) :=
          Finset.sum_le_sum fun v _ => ite5_le_5 i j u v
      _ = 15 := by simp; norm_num
  calc ∑ u ∈ Finset.range 3, ∑ v ∈ Finset.range 3, ite5 i j u v
        ≤ ∑ _u ∈ Finset.range 3, (15 : ℚ) := Finset.sum_le_sum h1
    _ = 45 := by simp; norm_num

lemma act5_ge (i j : ℕ) (hi : i < 128) (hj : j < 128) :
    20 ≤ (activation_map S5 onesK zeroB 0).val i j := by
  rw [act5_val_eq]; exact sum9_lower i j hi hj

lemma act5_le (i j : ℕ) :
    (activation_map S5 onesK zeroB 0).val i j ≤ 45 := by
  rw [act5_val_eq]; exact sum9_upper i j

lemma act5_00 : (activation_map S5 onesK zeroB 0).val 0 0 = 20 := by
  rw [act5_val_eq]
  simp [ite5, Finset.sum_range_succ]
  norm_num

lemma act5_11 : (activation_map S5 onesK zeroB 0).val 1 1 = 45 := by
  rw [act5_val_eq]
  simp [ite5, Finset.sum_range_succ]
  norm_num

lemma act5_min : (activation_map S5 onesK zeroB 0).minVal = 20 := by
  apply le_antisymm
  · have h := (activation_map S5 onesK zeroB 0).minVal_le
      (show (0 : ℕ) < (activation_map S5 onesK zeroB 0).h by norm_num [activation_map])
      (show (0 : ℕ) < (activation_map S5 onesK zeroB 0).w by norm_num [activation_map])
    rwa [act5_00] at h
  · exact Mat.le_minVal _ (by norm_num [activation_map]) (by norm_num [activation_map])
      fun i j hi hj => act5_ge i j hi hj

lemma act5_max : (activation_map S5 onesK zeroB 0).maxVal = 45 := by
  apply le_antisymm
  · exact Mat.maxVal_le _ (by norm_num [activation_map]) (by norm_num [activation_map])
      fun i j hi hj => act5_le i j
  · have h := (activation_map S5 onesK zeroB 0).le_maxVal
      (show (1 : ℕ) < (activation_map S5 onesK zeroB 0).h by norm_num [activation_map])
      (show (1 : ℕ) < (activation_map S5 onesK zeroB 0).w by norm_num [activation_map])
    rwa [act5_11] at h

/-- The activation map of the all-zero tile is identically zero. -/
lemma act0_val (i j : ℕ) : (activation_map S0 onesK zeroB 0).val i j = 0 := by
  show max ((conv2d_same S0 onesK).val 0 i j 0 + zeroB 0) 0 = 0
  have hconv : (conv2d_same S0 onesK).val 0 i j 0 = 0 := by
    simp [conv2d_same, padVal, S0, onesK]
  rw [hconv]
  simp [zeroB]

lemma act0_min : (activation_map S0 onesK zeroB 0).minVal = 0 := by
  apply le_antisymm
  · have h := (activation_map S0 onesK zeroB 0).minVal_le
      (show (0 : ℕ) < (activation_map S0 onesK zeroB 0).h by norm_num [activation_map])
      (show (0 : ℕ) < (activation_map S0 onesK zeroB 0).w by norm_num [activation_map])
    rwa [act0_val] at h
  · exact Mat.le_minVal _ (by norm_num [activation_map]) (by norm_num [activation_map])
      fun i j _ _ => le_of_eq (act0_val i j).symm

lemma act0_max : (activation_map S0 onesK zeroB 0).maxVal = 0 := by
  apply le_antisymm
  · exact Mat.maxVal_le _ (by norm_num [activation_map]) (by norm_num [activation_map])
      fun i j _ _ => le_of_eq (act0_val i j)
  · have h := (activation_map S0 onesK zeroB 0).le_maxVal
      (show (0 : ℕ) < (activation_map S0 onesK zeroB 0).h by norm_num [activation_map])
      (show (0 : ℕ) < (activation_map S0 onesK zeroB 0).w by norm_num [activation_map])
    rwa [act0_val] at h

/-- Claim C2 (code evaluation): on the all-zero tile with the all-ones
kernel and zero bias, the selected activation map is constant (zero),
and `interpret_activation` returns a masked spectrogram every entry of
which is NaN — min-max scaling divides 0 by 0 and no fallback
exists. -/
theorem interpret_activation_constant_nan :
    (∀ i j, (activation_map S0 onesK zeroB 0).val i j = 0) ∧
    (∀ i j, (maskedOf (interpret_activation S0 (onesK, zeroB) (some 0))).val i j = Fl.nan) := by
  refine ⟨act0_val, ?_⟩
  intro i j
  have hdeg : (activation_map S0 onesK zeroB 0).maxVal -
      (activation_map S0 onesK zeroB 0).minVal = 0 := by
    rw [act0_min, act0_max]; norm_num
  show Fl.mul (Fl.r ((squeeze4 S0).val i j))
      ((minmax_scaling (activation_map S0 onesK zeroB 0) 1).val i j) = Fl.nan
  rw [minmax_scaling_val_degenerate _ _ hdeg]
  rfl

/-- Claim C4 (counterexample): on the constant-5 tile with the
all-ones 3x3 kernel and zero bias, the activation map is NOT uniform
(zero padding makes the corner 20 and the interior 45), so no
degenerate-range situation arises, and the masked spectrogram is not
all zeros. -/
theorem interpret_uniform_input_cex :
    (activation_map S5 onesK zeroB 0).val 0 0 = 20 ∧
    (activation_map S5 onesK zeroB 0).val 1 1 = 45 ∧
    (activation_map S5 onesK zeroB 0).val 0 0 ≠ (activation_map S5 onesK zeroB 0).val 1 1 ∧
    (maskedOf (interpret_activation S5 (onesK, zeroB) (some 0))).val 1 1 ≠ Fl.r 0 := by
  have hdne : (activation_map S5 onesK zeroB 0).maxVal -
      (activation_map S5 onesK zeroB 0).minVal ≠ 0 := by
    rw [act5_min, act5_max]; norm_num
  refine ⟨act5_00, act5_11, by rw [act5_00, act5_11]; norm_num, ?_⟩
  show Fl.mul (Fl.r ((squeeze4 S5).val 1 1))
      ((minmax_scaling (activation_map S5 onesK zeroB 0) 1).val 1 1) ≠ Fl.r 0
  rw [minmax_scaling_val _ _ hdne, act5_min, act5_max, act5_11]
  norm_num [Fl.mul, squeeze4, S5]

/-- Claim C4 (amended): on the constant-5 tile the activation map
ranges over [20, 45]; the mask is well defined, the masked value is 0
at the corner (where the activation is minimal) and 5 at the interior
cell (1,1) (where it is maximal). -/
theorem interpret_uniform_input_masked_values :
    (activation_map S5 onesK zeroB 0).minVal = 20 ∧
    (activation_map S5 onesK zeroB 0).maxVal = 45 ∧
    (maskedOf (interpret_activation S5 (onesK, zeroB) (some 0))).val 0 0 = Fl.r 0 ∧
    (maskedOf (interpret_activation S5 (onesK, zeroB) (some 0))).val 1 1 = Fl.r 5 := by
  have hdne : (activation_map S5 onesK zeroB 0).maxVal -
      (activation_map S5 onesK zeroB 0).minVal ≠ 0 := by
    rw [act5_min, act5_max]; norm_num
  refine ⟨act5_min, act5_max, ?_, ?_⟩
  · show Fl.mul (Fl.r ((squeeze4 S5).val 0 0))
        ((minmax_scaling (activation_map S5 onesK zeroB 0) 1).val 0 0) = Fl.r 0
    rw [minmax_scaling_val _ _ hdne, act5_min, act5_max, act5_00]
    norm_num [Fl.mul, squeeze4, S5]
  · show Fl.mul (Fl.r ((squeeze4 S5).val 1 1))
        ((minmax_scaling (activation_map S5 onesK zeroB 0) 1).val 1 1) = Fl.r 5
    rw [minmax_scaling_val _ _ hdne, act5_min, act5_max, act5_11]
    norm_num [Fl.mul, squeeze4, S5]

/-- Claim C6: whenever the selected filter's activation map is
non-constant, every masked value is at most the corresponding input
value wherever the input is non-negative (the mask lies in [0,1]). -/
theorem interpret_activation_masked_le (S : T4) (K : Ker) (b : ℕ → ℚ) (idx : ℕ)
    (hn : S.n = 1) (hh : S.h = 128) (hw : S.w = 128) (hc : S.c = 1)
    (hoc : K.oc = 32) (hidx : idx < K.oc)
    (hnc : (activation_map S K b idx).minVal ≠ (activation_map S K b idx).maxVal) :
    ∀ i j, i < 128 → j < 128 → 0 ≤ S.val 0 i j 0 →
      Fl.le ((maskedOf (interpret_activation S (K, b) (some idx))).val i j)
        (Fl.r (S.val 0 i j 0)) := by
  intro i j hi hj hs
  have hdim_h : (0 : ℕ) < (activation_map S K b idx).h := by norm_num [activation_map]
  have hdim_w : (0 : ℕ) < (activation_map S K b idx).w := by norm_num [activation_map]
  have hlt : (activation_map S K b idx).minVal < (activation_map S K b idx).maxVal :=
    lt_of_le_of_ne ((activation_map S K b idx).minVal_le_maxVal hdim_h hdim_w) hnc
  have hd : (0 : ℚ) < (activation_map S K b idx).maxVal - (activation_map S K b idx).minVal :=
    by linarith
  have hdne : (activation_map S K b idx).maxVal - (activation_map S K b idx).minVal ≠ 0 :=
    ne_of_gt hd
  have hi128 : i < (activation_map S K b idx).h := by norm_num [activation_map]; exact hi
  have hj128 : j < (activation_map S K b idx).w := by norm_num [activation_map]; exact hj
  have ham := (activation_map S K b idx).minVal_le hi128 hj128
  have haM := (activation_map S K b idx).le_maxVal hi128 hj128
  show Fl.le (Fl.mul (Fl.r ((squeeze4 S).val i j))
      ((minmax_scaling (activation_map S K b idx) 1).val i j)) (Fl.r (S.val 0 i j 0))
  rw [minmax_scaling_val _ _ hdne]
  show ((squeeze4 S).val i j) *
      (((activation_map S K b idx).val i j - (activation_map S K b idx).minVal) /
        ((activation_map S K b idx).maxVal - (activation_map S K b idx).minVal) * 1) ≤
      S.val 0 i j 0
  rw [mul_one]
  have hq0 : 0 ≤ ((activation_map S K b idx).val i j - (activation_map S K b idx).minVal) /
      ((activation_map S K b idx).maxVal - (activation_map S K b idx).minVal) :=
    div_nonneg (by linarith) (le_of_lt hd)
  have hq1 : ((activation_map S K b idx).val i j - (activation_map S K b idx).minVal) /
      ((activation_map S K b idx).maxVal - (activation_map S K b idx).minVal) ≤ 1 := by
    rw [div_le_one hd]; linarith
  exact mul_le_of_le_one_right hs hq1

/-- Witness for claim C6 at the constant-5 tile (whose channel-0
activation map is non-constant: 20 at the corner, 45 inside). -/
theorem interpret_activation_masked_le_witness :
    S5.n = 1 ∧ S5.h = 128 ∧ S5.w = 128 ∧ S5.c = 1 ∧ onesK.oc = 32 ∧ 0 < onesK.oc ∧
    (activation_map S5 onesK zeroB 0).minVal ≠ (activation_map S5 onesK zeroB 0).maxVal ∧
    (0 : ℚ) ≤ S5.val 0 0 0 0 ∧
    Fl.le ((maskedOf (interpret_activation S5 (onesK, zeroB) (some 0))).val 0 0)
      (Fl.r (S5.val 0 0 0 0)) := by
  have hnc : (activation_map S5 onesK zeroB 0).minVal ≠
      (activation_map S5 onesK zeroB 0).maxVal := by
    rw [act5_min, act5_max]; norm_num
  exact ⟨rfl, rfl, rfl, rfl, rfl, by norm_num [onesK], hnc, by norm_num [S5],
    interpret_activation_masked_le S5 onesK zeroB 0 rfl rfl rfl rfl rfl
      (by norm_num [onesK]) hnc 0 0 (by norm_num) (by norm_num) (by norm_num [S5])⟩

end ClaimsBatch3
